import Mathlib

/-!
Shallow embedding of the speasy core (AMDA catalog resolver, fragmented
time-range cache, HTTP transport retry loop, AMDA REST flows) together with
theorems settling the specification claims.

Source files embedded:
  speasy/amda/amda.py   (catalog state, resolver, parameter_range, product_version)
  speasy/amda/rest.py   (AmdaRest multi-step REST flows)
  speasy/common/http.py (transport get with 429/523 retry loop)
The fragmented cache decorator (speasy/cache.py, class Cacheable) and the
inventory tree parsers (speasy/amda/obstree.py, speasy/amda/tttree.py) are not
part of the sources; where a claim needs them they are modelled from the
specification and marked as such in their doc comments.

Python side effects are made explicit: dictionaries become association lists,
exceptions become an Except monad over PyError, the network becomes an oracle
(a list or stream of responses), and sleeping becomes an accumulated log of
delays.
-/

/-- Python exceptions that the embedded code can raise. -/
inductive PyError where
  | keyError
  | valueError
  | connectionError
deriving DecidableEq

/-- Association-list lookup, modelling Python dictionary access d[k]
(first binding wins; Python dict keys are unique so this is exact). -/
def alookup {α β : Type} [DecidableEq α] (k : α) : List (α × β) → Option β
  | [] => none
  | (k2, v) :: rest => if k2 = k then some v else alookup k rest

/-- Membership test, modelling the Python expression k in d. -/
def adict_contains {α β : Type} [DecidableEq α] (k : α) (m : List (α × β)) : Bool :=
  (alookup k m).isSome

/-- Python dictionary subscript d[k]: the value when the key is present,
KeyError otherwise. -/
def dictGet {α β : Type} [DecidableEq α] (m : List (α × β)) (k : α) : Except PyError β :=
  match alookup k m with
  | some v => .ok v
  | none => .error .keyError

theorem alookup_isSome_iff {α β : Type} [DecidableEq α] (k : α) (m : List (α × β)) :
    (alookup k m).isSome ↔ k ∈ m.map Prod.fst := by
  induction m with
  | nil => simp [alookup]
  | cons kv rest ih =>
    obtain ⟨k2, v⟩ := kv
    by_cases h : k2 = k
    · subst h
      simp [alookup]
    · have h2 : k ≠ k2 := fun hh => h hh.symm
      simp [alookup, h, ih, h2]

theorem alookup_eq_none_iff {α β : Type} [DecidableEq α] (k : α) (m : List (α × β)) :
    alookup k m = none ↔ k ∉ m.map Prod.fst := by
  rw [← alookup_isSome_iff]
  cases alookup k m <;> simp

/-! ## Catalog data model (speasy/amda/amda.py)

Product records live in separate mappings, one per product kind.  Parameter
and component records carry the owning-dataset back-reference; dataset records
carry the validity window and the last-update marker (spec section 3 records
exactly these attributes for these kinds). -/

/-- A parameter record: carries the dataset back-reference. -/
structure ParamRec where
  dataset : String
deriving DecidableEq

/-- A component record: carries the dataset back-reference. -/
structure CompRec where
  dataset : String
deriving DecidableEq

/-- A dataset record: validity window and last-update marker. -/
structure DatasetRec where
  dataStart : String
  dataStop : String
  lastUpdate : String
deriving DecidableEq

/-- The mutable catalog state of the AMDA class: the product mappings set up
in AMDA.__init__ (amda.py lines 79-88).  Only the mappings the claims touch
are carried. -/
structure AmdaState where
  parameter : List (String × ParamRec)
  dataset : List (String × DatasetRec)
  component : List (String × CompRec)
  timeTable : List String
deriving DecidableEq

/-- Enumeration of the product types (amda.py class ProductType). -/
inductive ProductType where
  | UNKNOWN
  | DATASET
  | PARAMETER
  | COMPONENT
  | TIMETABLE
  | CATALOG
deriving DecidableEq

/-- AMDA.get_product_type (amda.py lines 390-412): membership tests against
the dataset, parameter and component mappings in that order. -/
def get_product_type (st : AmdaState) (product_id : String) : ProductType :=
  if adict_contains product_id st.dataset then ProductType.DATASET
  else if adict_contains product_id st.parameter then ProductType.PARAMETER
  else if adict_contains product_id st.component then ProductType.COMPONENT
  else ProductType.UNKNOWN

/-- AMDA.list_parameters (amda.py lines 337-347): with a dataset filter the
keys whose looked-up record has that dataset back-reference, without a filter
all keys of the parameter mapping. -/
def list_parameters (st : AmdaState) (dataset_id : Option String) : List String :=
  match dataset_id with
  | some d =>
    (st.parameter.map Prod.fst).filter (fun k =>
      match alookup k st.parameter with
      | some r => r.dataset == d
      | none => false)
  | none => st.parameter.map Prod.fst

/-- AMDA.product_version (amda.py lines 181-182): two chained dictionary
subscripts, each raising KeyError when the key is absent. -/
def product_version (st : AmdaState) (parameter_id : String) : Except PyError String := do
  let p ← dictGet st.parameter parameter_id
  let ds ← dictGet st.dataset p.dataset
  pure ds.lastUpdate

/-! ## Calendar timestamps (datetime.strptime on the fixed format) -/

/-- A parsed calendar timestamp (the fields datetime.strptime extracts from
the format used by parameter_range). -/
structure PyDatetime where
  year : Nat
  month : Nat
  day : Nat
  hour : Nat
  minute : Nat
  second : Nat
deriving DecidableEq

/-- Numeric value of a decimal digit character. -/
def digitVal (c : Char) : Nat := c.toNat - 48

/-- datetime.strptime(s, fixed format year-month-dayThour:minute:secondZ)
(amda.py lines 334-335): succeeds on exactly the twenty-character shape with
in-range fields, raises ValueError otherwise.  Models the Python standard
library call at this one format. -/
def strptimeZ (s : String) : Except PyError PyDatetime :=
  match s.toList with
  | [y1, y2, y3, y4, c1, m1, m2, c2, d1, d2, c3, h1, h2, c4, i1, i2, c5, s1, s2, c6] =>
    if ([y1, y2, y3, y4, m1, m2, d1, d2, h1, h2, i1, i2, s1, s2].all Char.isDigit
        && c1 = '-' && c2 = '-' && c3 = 'T' && c4 = ':' && c5 = ':' && c6 = 'Z') then
      let mo := 10 * digitVal m1 + digitVal m2
      let da := 10 * digitVal d1 + digitVal d2
      let ho := 10 * digitVal h1 + digitVal h2
      let mi := 10 * digitVal i1 + digitVal i2
      let se := 10 * digitVal s1 + digitVal s2
      if 1 ≤ mo && mo ≤ 12 && 1 ≤ da && da ≤ 31 && ho ≤ 23 && mi ≤ 59 && se ≤ 59 then
        .ok ⟨1000 * digitVal y1 + 100 * digitVal y2 + 10 * digitVal y3 + digitVal y4,
             mo, da, ho, mi, se⟩
      else .error .valueError
    else .error .valueError
  | _ => .error .valueError

/-- The value parameter_range builds from a dataset record (the repository
class DateTimeRange holds a start and a stop time). -/
structure DateTimeRange where
  start_time : PyDatetime
  stop_time : PyDatetime
deriving DecidableEq

/-! ## Inventory update and the durable snapshot (amda.py lines 114-126) -/

/-- The catalog content offered by the remote service for one inventory
load: what parsing the observatory data tree and the timetable tree yields. -/
structure RemoteInventory where
  parameter : List (String × ParamRec)
  dataset : List (String × DatasetRec)
  component : List (String × CompRec)
  timeTable : List String
deriving DecidableEq

/-- The durable cache as seen through the inventory snapshot key: the stored
snapshot together with its expiry in time units, when present. -/
structure InventoryCache where
  inventory : Option (RemoteInventory × Nat)
deriving DecidableEq

/-- Catalog state holding exactly the remote inventory content. -/
def stateOfInventory (remote : RemoteInventory) : AmdaState :=
  { parameter := remote.parameter
    dataset := remote.dataset
    component := remote.component
    timeTable := remote.timeTable }

/-- Modelled from the spec: AMDA.update_inventory (amda.py lines 114-126)
delegates catalog construction to ObsDataTreeParser.extrac_all and
TimeTableTree.extrac_all (speasy/amda/obstree.py and speasy/amda/tttree.py,
absent from the sources); per the specification the load replaces all product
mappings from the parsed remote trees.  The cache write on line 126 is in the
sources: the snapshot is stored under the inventory key with expiry
7 * 24 * 60 * 60. -/
def update_inventory (remote : RemoteInventory) (_st : AmdaState) (_c : InventoryCache) :
    AmdaState × InventoryCache :=
  (stateOfInventory remote, { inventory := some (remote, 7 * 24 * 60 * 60) })

/-- The dataset-name resolution step of AMDA.parameter_range (amda.py lines
320-328): the dataset back-reference for a parameter or component, the id
itself for a dataset, nothing otherwise. -/
def owner_dataset (st : AmdaState) (pid : String) : Option String :=
  match get_product_type st pid with
  | ProductType.PARAMETER => (alookup pid st.parameter).map (fun r => r.dataset)
  | ProductType.DATASET => some pid
  | ProductType.COMPONENT => (alookup pid st.component).map (fun r => r.dataset)
  | _ => none

/-- The body of AMDA.parameter_range after the inventory check (amda.py lines
317-336): resolve the product type, derive the owning dataset name, and when
that name is a key of the dataset mapping parse its window; dictionary
subscripts raise KeyError and strptime raises ValueError. -/
def parameter_range_body (st : AmdaState) (pid : String) :
    Except PyError (Option DateTimeRange) := do
  let dn? ←
    match get_product_type st pid with
    | ProductType.PARAMETER => do
      let r ← dictGet st.parameter pid
      pure (some r.dataset)
    | ProductType.DATASET => pure (some pid)
    | ProductType.COMPONENT => do
      let r ← dictGet st.component pid
      pure (some r.dataset)
    | _ => pure none
  match dn? with
  | none => pure none
  | some dn =>
    if adict_contains dn st.dataset then do
      let ds ← dictGet st.dataset dn
      let a ← strptimeZ ds.dataStart
      let b ← strptimeZ ds.dataStop
      pure (some ⟨a, b⟩)
    else
      pure none

/-- AMDA.parameter_range (amda.py lines 307-336): when the parameter mapping
is empty first rebuild the inventory (which also writes the snapshot), then
resolve against the resulting state.  State and cache are returned alongside
the value so the side effects stay visible even when the body raises. -/
def parameter_range (remote : RemoteInventory) (st : AmdaState) (c : InventoryCache)
    (pid : String) : AmdaState × InventoryCache × Except PyError (Option DateTimeRange) :=
  let (st2, c2) := if st.parameter.isEmpty then update_inventory remote st c else (st, c)
  (st2, c2, parameter_range_body st2 pid)

/-! ## Transport layer (speasy/common/http.py) -/

/-- Decimal value of a digit run. -/
def decVal (cs : List Char) : Nat := cs.foldl (fun a c => 10 * a + digitVal c) 0

/-- Leading and trailing blanks removed from a character list (str.strip and
the whitespace stripping of the float builtin). -/
def stripChars (cs : List Char) : List Char :=
  ((cs.dropWhile (fun c => c = ' ')).reverse.dropWhile (fun c => c = ' ')).reverse

/-- Unsigned part of Python float(s): an integer part and an optional
fractional part, at least one digit overall. -/
def pyFloatCore (cs : List Char) : Option ℚ :=
  let ip := cs.takeWhile (fun c => c ≠ '.')
  let rest := cs.dropWhile (fun c => c ≠ '.')
  match rest with
  | [] =>
    if ip ≠ [] && ip.all Char.isDigit then some (decVal ip) else none
  | _ :: fp =>
    if (ip ≠ [] || fp ≠ []) && ip.all Char.isDigit && fp.all Char.isDigit then
      some ((decVal ip : ℚ) + (decVal fp : ℚ) / ((10 : ℚ) ^ fp.length))
    else none

/-- Python float(s) on plain decimal strings: strips surrounding whitespace,
accepts an optional sign, digits and one decimal point; anything else raises
ValueError (modelled as none).  Models the builtin as used on Retry-After
header values. -/
def pyFloat (s : String) : Option ℚ :=
  match stripChars s.toList with
  | '+' :: cs => pyFloatCore cs
  | '-' :: cs => (pyFloatCore cs).map Neg.neg
  | cs => pyFloatCore cs

/-- An HTTP response as the transport loop inspects it: the status code and
the Retry-After header when present. -/
structure HttpResponse where
  status_code : Nat
  retryAfter : Option String
deriving DecidableEq

/-- One issued request: url, effective header list, and the params argument
passed to requests.get (none when the keyword was not passed). -/
structure HttpRequest where
  url : String
  headers : List (String × String)
  params : Option (List (String × String))
deriving DecidableEq

/-- The User-Agent header value set on every call (http.py line 14); its
exact text (version and platform string) is irrelevant to the claims. -/
def USER_AGENT : String := "Speasy"

/-- All bindings of a key removed from an association list. -/
def adict_remove {α β : Type} [DecidableEq α] (k : α) : List (α × β) → List (α × β)
  | [] => []
  | (k1, v) :: rest =>
    if k1 = k then adict_remove k rest else (k1, v) :: adict_remove k rest

/-- Python dictionary assignment d[k] = v on an association list: the key is
bound to the new value, every other binding is unchanged. -/
def adict_set {α β : Type} [DecidableEq α] (m : List (α × β)) (k : α) (v : β) :
    List (α × β) :=
  (k, v) :: adict_remove k m

/-- The while loop of speasy.common.http.get (http.py lines 16-23), driven by
an oracle list of the responses successive requests.get calls return.  The
accumulators log every issued request and every sleep.  Reading the absent
Retry-After header raises KeyError (only ValueError is caught around the float
conversion); an unparsable header defaults the delay to 5.  Result none means
the oracle was exhausted while the loop was still retrying. -/
def http_get_loop (url : String) (headers : List (String × String))
    (params : Option (List (String × String))) :
    HttpResponse → List HttpResponse → List HttpRequest → List ℚ →
    List HttpRequest × List ℚ × Except PyError (Option HttpResponse)
  | resp, rest, reqs, sleeps =>
    if resp.status_code = 429 ∨ resp.status_code = 523 then
      match resp.retryAfter with
      | none => (reqs, sleeps, .error .keyError)
      | some h =>
        let delay := match pyFloat h with
          | some q => q
          | none => 5
        match rest with
        | [] => (reqs, sleeps ++ [delay], .ok none)
        | r2 :: rest2 =>
          http_get_loop url headers params r2 rest2
            (reqs ++ [{ url := url, headers := headers, params := params }])
            (sleeps ++ [delay])
    else (reqs, sleeps, .ok (some resp))

/-- speasy.common.http.get (http.py lines 12-24): set the User-Agent header,
issue the first request WITHOUT the params keyword (line 15 passes only url
and headers), then loop while the status is 429 or 523, retrying with params.
Returns the issued requests, the sleep log, and the outcome. -/
def http_get (url : String) (headers0 : Option (List (String × String)))
    (params : Option (List (String × String))) (responses : List HttpResponse) :
    List HttpRequest × List ℚ × Except PyError (Option HttpResponse) :=
  let headers := adict_set (headers0.getD []) "User-Agent" USER_AGENT
  match responses with
  | [] => ([], [], .ok none)
  | r :: rest =>
    http_get_loop url headers params r rest
      [{ url := url, headers := headers, params := none }] []

/-! ## AMDA REST flows (speasy/amda/rest.py)

Each call to requests.get is driven by an oracle: the k-th network call of a
flow yields the k-th oracle entry, either the response text or a raised
transport exception.  Results carry the number of network calls consumed so
the attempt structure is observable. -/

/-- Outcome of one requests.get call in a REST flow. -/
def RemoteResult : Type := Except PyError String

/-- str.strip() on response text. -/
def pyStrip (s : String) : String := String.mk (stripChars s.toList)

/-- The body of AmdaRest.get_timetable_list (rest.py lines 10-21): a loop
over three attempt slots; each iteration requests a token (one call inside
the get_token property), fetches the list-of-URLs document, fetches the file
at that URL, and returns its text unconditionally.  Any raising call
propagates immediately.  Returns the result and the number of network calls
consumed starting at index k. -/
def ttl_loop (oracle : Nat → RemoteResult) (k : Nat) :
    Nat → Except PyError (Option String) × Nat
  | 0 => (.ok none, 0)
  | _ + 1 =>
    match oracle k with
    | .error e => (.error e, 1)
    | .ok _tok =>
      match oracle (k + 1) with
      | .error e => (.error e, 2)
      | .ok _doc =>
        match oracle (k + 2) with
        | .error e => (.error e, 3)
        | .ok body => (.ok (some (pyStrip body)), 3)

/-- AmdaRest.get_timetable_list (rest.py lines 10-21): run the loop with
three attempt slots from the start of the oracle. -/
def amdarest_get_timetable_list (oracle : Nat → RemoteResult) :
    Except PyError (Option String) × Nat :=
  ttl_loop oracle 0 3

/-- The body of AmdaRest.get_timetable (rest.py lines 53-63): same loop shape
but a single data request per iteration after the token request, returning
its text unconditionally. -/
def tt_loop (oracle : Nat → RemoteResult) (k : Nat) :
    Nat → Except PyError (Option String) × Nat
  | 0 => (.ok none, 0)
  | _ + 1 =>
    match oracle k with
    | .error e => (.error e, 1)
    | .ok _tok =>
      match oracle (k + 1) with
      | .error e => (.error e, 2)
      | .ok body => (.ok (some (pyStrip body)), 2)

/-- AmdaRest.get_timetable (rest.py lines 53-63). -/
def amdarest_get_timetable (oracle : Nat → RemoteResult) :
    Except PyError (Option String) × Nat :=
  tt_loop oracle 0 2

/-- What one getParameter.php call gives AmdaRest.get_parameter after
r.json(): a raised exception (transport or JSON decode), a JSON document with
success true carrying dataFileURLs, or any other JSON document. -/
inductive RestAnswer where
  | raised (e : PyError)
  | good (dataFileURLs : String)
  | bad
deriving DecidableEq

/-- The loop of AmdaRest.get_parameter (rest.py lines 79-94), indexed by
attempt number: each attempt requests a token then the parameter document; a
successful JSON returns its dataFileURLs immediately, any other JSON moves to
the next attempt, a raising call propagates.  Returns the result and the
number of attempts that were started. -/
def gp_loop (tokOracle : Nat → RemoteResult) (ansOracle : Nat → RestAnswer) :
    Nat → Nat → Except PyError (Option String) × Nat
  | 0, a => (.ok none, a)
  | n + 1, a =>
    match tokOracle a with
    | .error e => (.error e, a + 1)
    | .ok _tok =>
      match ansOracle a with
      | .raised e => (.error e, a + 1)
      | .good urls => (.ok (some urls), a + 1)
      | .bad => gp_loop tokOracle ansOracle n (a + 1)

/-- AmdaRest.get_parameter (rest.py lines 79-94): three attempt slots, then
the fall-through return None. -/
def amdarest_get_parameter (tokOracle : Nat → RemoteResult)
    (ansOracle : Nat → RestAnswer) : Except PyError (Option String) × Nat :=
  gp_loop tokOracle ansOracle 3 0

/-! ## Fragmented time-range cache

The Cacheable decorator applied to AMDA.get_data (amda.py line 184, with
version = product_version and a 12-hour fragment grid) lives in
speasy/cache.py, which is not among the sources.  The definitions below are
modelled from the specification contract for fetch (spec section 4.2). -/

/-- Cache key of a fragment: product id and the fragment bounds. -/
structure FragKey where
  pid : String
  fragStart : Nat
  fragEnd : Nat
deriving DecidableEq

/-- A time-stamped payload: samples tagged with their time. -/
abbrev Payload : Type := List (Nat × String)

/-- A stored fragment: payload plus the version token captured at fetch
time. -/
structure FragEntry where
  payload : Payload
  version : String
deriving DecidableEq

/-- The persistent fragment store. -/
abbrev Store : Type := List (FragKey × FragEntry)

/-- Store read by key. -/
def storeGet (s : Store) (k : FragKey) : Option FragEntry := alookup k s

/-- Store write by key, overwriting any existing entry. -/
def storeSet (s : Store) (k : FragKey) (e : FragEntry) : Store := adict_set s k e

/-- Modelled from the spec: the grid decomposition of spec section 4.2 step 2
(fragment_hours in speasy/cache.py, absent from the sources).  The start
points of the minimal ordered run of grid-aligned cells of width w covering
the half-open request, empty when the request is empty. -/
def fragStarts (start stop w : Nat) : List Nat :=
  if w = 0 then []
  else if start < stop then
    let f := start / w * w
    (List.range ((stop - f + (w - 1)) / w)).map (fun i => f + i * w)
  else []

/-- Modelled from the spec: one iteration of spec section 4.2 step 3 (the
per-fragment logic of Cacheable in speasy/cache.py, absent from the sources).
Reuse a stored fragment whose version equals the current token, otherwise
call rawFetch on the cell bounds, store the result under the current token,
and use it.  The accumulator carries the merged payload, the store, and the
raw-fetch count. -/
def fetchFragment (pid ver : String) (rawFetch : Nat → Nat → Payload) (w : Nat)
    (acc : Payload × Store × Nat) (fs : Nat) : Payload × Store × Nat :=
  let merged := acc.1
  let store := acc.2.1
  let cnt := acc.2.2
  match storeGet store ⟨pid, fs, fs + w⟩ with
  | some e =>
    if e.version = ver then (merged ++ e.payload, store, cnt)
    else
      let p := rawFetch fs (fs + w)
      (merged ++ p, storeSet store ⟨pid, fs, fs + w⟩ ⟨p, ver⟩, cnt + 1)
  | none =>
    let p := rawFetch fs (fs + w)
    (merged ++ p, storeSet store ⟨pid, fs, fs + w⟩ ⟨p, ver⟩, cnt + 1)

/-- Modelled from the spec: trimming of spec section 4.2 step 4, keeping the
samples inside the requested half-open range. -/
def trimPayload (start stop : Nat) (p : Payload) : Payload :=
  p.filter (fun ts => decide (start ≤ ts.1) && decide (ts.1 < stop))

/-- Modelled from the spec: the fetch contract of spec section 4.2 (the
Cacheable decorator of speasy/cache.py, absent from the sources).  Compute
the version token, walk the grid cells in ascending order reusing valid
fragments and fetching the rest, then trim the concatenation to the request.
Returns the trimmed payload, the updated store, and the raw-fetch count. -/
def cfetch (pid : String) (start stop : Nat) (versionOf : String → String)
    (rawFetch : Nat → Nat → Payload) (w : Nat) (store : Store) :
    Payload × Store × Nat :=
  let ver := versionOf pid
  let r := (fragStarts start stop w).foldl (fetchFragment pid ver rawFetch w)
    ([], store, 0)
  (trimPayload start stop r.1, r.2.1, r.2.2)

/-! ## Reduction lemmas for the Except monad -/

@[simp] lemma except_ok_bind {ε α β : Type} (a : α) (f : α → Except ε β) :
    (Except.ok a : Except ε α) >>= f = f a := rfl

@[simp] lemma except_error_bind {ε α β : Type} (e : ε) (f : α → Except ε β) :
    (Except.error e : Except ε α) >>= f = Except.error e := rfl

@[simp] lemma except_map_ok {ε α β : Type} (f : α → β) (a : α) :
    f <$> (Except.ok a : Except ε α) = Except.ok (f a) := rfl

@[simp] lemma except_map_error {ε α β : Type} (f : α → β) (e : ε) :
    f <$> (Except.error e : Except ε α) = Except.error e := rfl

@[simp] lemma except_pure_eq_ok {ε α : Type} (a : α) :
    (pure a : Except ε α) = Except.ok a := rfl

deriving instance DecidableEq for Except

/-! ## Sample catalog used by witnesses -/

/-- A small concrete catalog: one parameter, its dataset, one component, one
timetable (ids taken from the example script). -/
def sampleState : AmdaState :=
  { parameter := [("imf", { dataset := "ace-imf-all" })]
    dataset := [("ace-imf-all",
      { dataStart := "2000-01-01T00:00:00Z"
        dataStop := "2000-01-02T00:00:00Z"
        lastUpdate := "v1" })]
    component := [("imf(0)", { dataset := "ace-imf-all" })]
    timeTable := ["sharedtimeTable"] }

/-- A remote inventory with the same content as the sample catalog. -/
def sampleRemote : RemoteInventory :=
  { parameter := sampleState.parameter
    dataset := sampleState.dataset
    component := sampleState.component
    timeTable := sampleState.timeTable }

/-- An empty durable cache. -/
def sampleCache : InventoryCache := { inventory := none }

/-! ## Claim theorems: resolver -/

/-- Claim C5: get_product_type returns DATASET when the id is a dataset key,
else PARAMETER when a parameter key, else COMPONENT when a component key,
else UNKNOWN; it is a total function (never raises) and the lookup order is
dataset, then parameter, then component. -/
theorem claim_C5 (st : AmdaState) (pid : String) :
    (adict_contains pid st.dataset = true →
      get_product_type st pid = ProductType.DATASET) ∧
    (adict_contains pid st.dataset = false → adict_contains pid st.parameter = true →
      get_product_type st pid = ProductType.PARAMETER) ∧
    (adict_contains pid st.dataset = false → adict_contains pid st.parameter = false →
      adict_contains pid st.component = true →
      get_product_type st pid = ProductType.COMPONENT) ∧
    (adict_contains pid st.dataset = false → adict_contains pid st.parameter = false →
      adict_contains pid st.component = false →
      get_product_type st pid = ProductType.UNKNOWN) := by
  refine ⟨fun h1 => ?_, fun h1 h2 => ?_, fun h1 h2 h3 => ?_, fun h1 h2 h3 => ?_⟩
  · simp [get_product_type, h1]
  · simp [get_product_type, h1, h2]
  · simp [get_product_type, h1, h2, h3]
  · simp [get_product_type, h1, h2, h3]

theorem claim_C5_witness :
    get_product_type sampleState "ace-imf-all" = ProductType.DATASET ∧
    get_product_type sampleState "imf" = ProductType.PARAMETER ∧
    get_product_type sampleState "imf(0)" = ProductType.COMPONENT ∧
    get_product_type sampleState "nonexistent" = ProductType.UNKNOWN :=
  ⟨(claim_C5 sampleState "ace-imf-all").1 (by decide),
   (claim_C5 sampleState "imf").2.1 (by decide) (by decide),
   (claim_C5 sampleState "imf(0)").2.2.1 (by decide) (by decide) (by decide),
   (claim_C5 sampleState "nonexistent").2.2.2 (by decide) (by decide) (by decide)⟩

/-- Membership in the filtered parameter listing. -/
lemma mem_list_parameters_some_iff (st : AmdaState) (d p : String) :
    p ∈ list_parameters st (some d) ↔
      ∃ r, alookup p st.parameter = some r ∧ r.dataset = d := by
  simp only [list_parameters, List.mem_filter]
  constructor
  · rintro ⟨hmem, hpred⟩
    cases hl : alookup p st.parameter with
    | none => rw [hl] at hpred; simp at hpred
    | some r =>
      rw [hl] at hpred
      exact ⟨r, rfl, by simpa using hpred⟩
  · rintro ⟨r, hl, hd⟩
    refine ⟨?_, ?_⟩
    · rw [← alookup_isSome_iff]
      simp [hl]
    · rw [hl]
      simp [hd]

/-- Claim C8: list_parameters without a filter is exactly the keys of the
parameter mapping; with a dataset filter it is exactly the parameter ids
whose dataset back-reference equals the filter; hence every parameter owned
by a dataset is listed under that dataset. -/
theorem claim_C8 (st : AmdaState) (d : String) :
    list_parameters st none = st.parameter.map Prod.fst ∧
    (∀ p, p ∈ list_parameters st (some d) ↔
      ∃ r, alookup p st.parameter = some r ∧ r.dataset = d) ∧
    (∀ p r, alookup p st.parameter = some r → r.dataset = d →
      p ∈ list_parameters st (some d)) :=
  ⟨rfl, fun p => mem_list_parameters_some_iff st d p,
   fun p r hl hd => (mem_list_parameters_some_iff st d p).mpr ⟨r, hl, hd⟩⟩

theorem claim_C8_witness :
    "imf" ∈ list_parameters sampleState (some "ace-imf-all") :=
  (claim_C8 sampleState "ace-imf-all").2.2 "imf" { dataset := "ace-imf-all" }
    (by decide) rfl

/-- Claim C9: product_version succeeds exactly when its argument is a key of
the parameter mapping whose dataset back-reference is a key of the dataset
mapping, in which case it returns that dataset record's lastUpdate marker;
on any other id (dataset, component or timetable ids included, none of which
are parameter keys) it raises KeyError. -/
theorem claim_C9 (st : AmdaState) (pid : String) :
    (∀ p ds, alookup pid st.parameter = some p →
      alookup p.dataset st.dataset = some ds →
      product_version st pid = .ok ds.lastUpdate) ∧
    (alookup pid st.parameter = none →
      product_version st pid = .error .keyError) ∧
    (∀ p, alookup pid st.parameter = some p →
      alookup p.dataset st.dataset = none →
      product_version st pid = .error .keyError) ∧
    (∀ v, product_version st pid = .ok v →
      ∃ p ds, alookup pid st.parameter = some p ∧
        alookup p.dataset st.dataset = some ds ∧ v = ds.lastUpdate) := by
  refine ⟨fun p ds h1 h2 => ?_, fun h1 => ?_, fun p h1 h2 => ?_, fun v hv => ?_⟩
  · simp [product_version, dictGet, h1, h2]
  · simp [product_version, dictGet, h1]
  · simp [product_version, dictGet, h1, h2]
  · cases h1 : alookup pid st.parameter with
    | none => simp [product_version, dictGet, h1] at hv
    | some p =>
      cases h2 : alookup p.dataset st.dataset with
      | none => simp [product_version, dictGet, h1, h2] at hv
      | some ds =>
        simp [product_version, dictGet, h1, h2] at hv
        exact ⟨p, ds, rfl, h2, hv.symm⟩

theorem claim_C9_witness :
    product_version sampleState "imf" = .ok "v1" ∧
    product_version sampleState "ace-imf-all" = .error .keyError :=
  ⟨(claim_C9 sampleState "imf").1 { dataset := "ace-imf-all" }
      { dataStart := "2000-01-01T00:00:00Z"
        dataStop := "2000-01-02T00:00:00Z"
        lastUpdate := "v1" } (by decide) (by decide),
   (claim_C9 sampleState "ace-imf-all").2.1 (by decide)⟩

/-! ## Claim theorems: parameter_range -/

lemma gpt_cases (st : AmdaState) (pid : String) :
    get_product_type st pid = ProductType.DATASET ∨
    get_product_type st pid = ProductType.PARAMETER ∨
    get_product_type st pid = ProductType.COMPONENT ∨
    get_product_type st pid = ProductType.UNKNOWN := by
  unfold get_product_type
  split_ifs <;> simp

lemma gpt_parameter_isSome (st : AmdaState) (pid : String)
    (h : get_product_type st pid = ProductType.PARAMETER) :
    (alookup pid st.parameter).isSome := by
  unfold get_product_type at h
  split_ifs at h with h1 h2 h3
  all_goals simp_all [adict_contains]

lemma gpt_component_isSome (st : AmdaState) (pid : String)
    (h : get_product_type st pid = ProductType.COMPONENT) :
    (alookup pid st.component).isSome := by
  unfold get_product_type at h
  split_ifs at h with h1 h2 h3
  all_goals simp_all [adict_contains]

/-- The tail of the resolution: given the owning dataset name, look it up in
the dataset mapping and parse its window. -/
def range_of_owner (st : AmdaState) (dn? : Option String) :
    Except PyError (Option DateTimeRange) :=
  match dn? with
  | none => .ok none
  | some dn =>
    match alookup dn st.dataset with
    | none => .ok none
    | some ds => do
      let a ← strptimeZ ds.dataStart
      let b ← strptimeZ ds.dataStop
      pure (some ⟨a, b⟩)

/-- parameter_range_body reduced to the resolution structure the claims talk
about: owning dataset first, then the dataset mapping, then parsing. -/
lemma prb_eq (st : AmdaState) (pid : String) :
    parameter_range_body st pid = range_of_owner st (owner_dataset st pid) := by
  rcases gpt_cases st pid with hgp | hgp | hgp | hgp
  · cases hd : alookup pid st.dataset with
    | none =>
      simp [parameter_range_body, owner_dataset, range_of_owner, hgp, adict_contains,
        dictGet, hd]
    | some ds =>
      simp [parameter_range_body, owner_dataset, range_of_owner, hgp, adict_contains,
        dictGet, hd]
  · have hs := gpt_parameter_isSome st pid hgp
    cases hl : alookup pid st.parameter with
    | none => rw [hl] at hs; simp at hs
    | some r =>
      cases hd : alookup r.dataset st.dataset with
      | none =>
        simp [parameter_range_body, owner_dataset, range_of_owner, hgp, adict_contains,
          dictGet, hl, hd]
      | some ds =>
        simp [parameter_range_body, owner_dataset, range_of_owner, hgp, adict_contains,
          dictGet, hl, hd]
  · have hs := gpt_component_isSome st pid hgp
    cases hl : alookup pid st.component with
    | none => rw [hl] at hs; simp at hs
    | some r =>
      cases hd : alookup r.dataset st.dataset with
      | none =>
        simp [parameter_range_body, owner_dataset, range_of_owner, hgp, adict_contains,
          dictGet, hl, hd]
      | some ds =>
        simp [parameter_range_body, owner_dataset, range_of_owner, hgp, adict_contains,
          dictGet, hl, hd]
  · simp [parameter_range_body, owner_dataset, range_of_owner, hgp]

/-- Claim C6: parameter_range resolves the id to its owning dataset (the
dataset back-reference for a parameter or component, the id itself for a
dataset); with a recorded window it returns the parsed calendar range, and it
returns None without raising both when the id resolves to no product and when
the owning dataset has no record in the dataset mapping.  Stated on a state
whose parameter mapping is non-empty so resolution applies to that state. -/
theorem claim_C6 (remote : RemoteInventory) (st : AmdaState) (c : InventoryCache)
    (pid : String) (hne : st.parameter ≠ []) :
    (owner_dataset st pid = none →
      (parameter_range remote st c pid).2.2 = .ok none) ∧
    (∀ dn, owner_dataset st pid = some dn → alookup dn st.dataset = none →
      (parameter_range remote st c pid).2.2 = .ok none) ∧
    (∀ dn ds a b, owner_dataset st pid = some dn →
      alookup dn st.dataset = some ds →
      strptimeZ ds.dataStart = .ok a → strptimeZ ds.dataStop = .ok b →
      (parameter_range remote st c pid).2.2 = .ok (some ⟨a, b⟩)) := by
  have hie : st.parameter.isEmpty = false := by
    cases hst : st.parameter with
    | nil => exact absurd hst hne
    | cons a l => rfl
  have hval : (parameter_range remote st c pid).2.2 = parameter_range_body st pid := by
    simp [parameter_range, hie]
  refine ⟨fun h => ?_, fun dn h hd => ?_, fun dn ds a b h hd ha hb => ?_⟩
  · rw [hval, prb_eq, h]
    rfl
  · rw [hval, prb_eq, h]
    simp [range_of_owner, hd]
  · rw [hval, prb_eq, h]
    simp [range_of_owner, hd, ha, hb]

theorem claim_C6_witness :
    (parameter_range sampleRemote sampleState sampleCache "imf").2.2 =
      .ok (some { start_time := ⟨2000, 1, 1, 0, 0, 0⟩
                  stop_time := ⟨2000, 1, 2, 0, 0, 0⟩ }) :=
  (claim_C6 sampleRemote sampleState sampleCache "imf" (by decide)).2.2
    "ace-imf-all"
    { dataStart := "2000-01-01T00:00:00Z"
      dataStop := "2000-01-02T00:00:00Z"
      lastUpdate := "v1" }
    ⟨2000, 1, 1, 0, 0, 0⟩ ⟨2000, 1, 2, 0, 0, 0⟩
    (by decide) (by decide) (by decide) (by decide)

/-- Claim C10: with an empty parameter mapping parameter_range first rebuilds
the whole catalog from the remote service and overwrites the inventory
snapshot with a 7 * 24 * 60 * 60 expiry, resolving against the rebuilt state;
with a non-empty parameter mapping it performs no rebuild and leaves catalog
state and snapshot unchanged. -/
theorem claim_C10 (remote : RemoteInventory) (st : AmdaState) (c : InventoryCache)
    (pid : String) :
    (st.parameter = [] →
      parameter_range remote st c pid =
        (stateOfInventory remote,
         { inventory := some (remote, 7 * 24 * 60 * 60) },
         parameter_range_body (stateOfInventory remote) pid)) ∧
    (st.parameter ≠ [] →
      parameter_range remote st c pid = (st, c, parameter_range_body st pid)) := by
  constructor
  · intro h
    simp [parameter_range, h, update_inventory]
  · intro h
    have hie : st.parameter.isEmpty = false := by
      cases hst : st.parameter with
      | nil => exact absurd hst h
      | cons a l => rfl
    simp [parameter_range, hie]

/-- The catalog state with every mapping empty (the state AMDA.__init__
builds before any inventory load). -/
def emptyState : AmdaState :=
  { parameter := [], dataset := [], component := [], timeTable := [] }

theorem claim_C10_witness :
    parameter_range sampleRemote emptyState sampleCache "imf" =
      (stateOfInventory sampleRemote,
       { inventory := some (sampleRemote, 7 * 24 * 60 * 60) },
       parameter_range_body (stateOfInventory sampleRemote) "imf") ∧
    parameter_range sampleRemote sampleState sampleCache "imf" =
      (sampleState, sampleCache, parameter_range_body sampleState "imf") :=
  ⟨(claim_C10 sampleRemote emptyState sampleCache "imf").1 rfl,
   (claim_C10 sampleRemote sampleState sampleCache "imf").2 (by decide)⟩

/-! ## Claim theorems: transport retry loop -/

/-- Claim C1 counterevidence: with a params argument, a rate-limited first
response and then a 200, the transport issues the first request without the
params keyword (http.py line 15) and the retry with it (line 23), so the
retried request is not identical to the original; the 200 response itself is
returned as-is after a sleep of the parsed Retry-After value. -/
theorem http_get_first_request_drops_params :
    http_get "u" none (some [("q", "1")])
        [{ status_code := 429, retryAfter := some "2" },
         { status_code := 200, retryAfter := none }] =
      ([{ url := "u", headers := [("User-Agent", USER_AGENT)], params := none },
        { url := "u", headers := [("User-Agent", USER_AGENT)],
          params := some [("q", "1")] }],
       [(2 : ℚ)],
       .ok (some { status_code := 200, retryAfter := none })) ∧
    ({ url := "u", headers := [("User-Agent", USER_AGENT)],
       params := none : HttpRequest } ≠
     { url := "u", headers := [("User-Agent", USER_AGENT)],
       params := some [("q", "1")] }) := by
  decide

/-- Claim C3 counterevidence: a 429 response carrying no Retry-After header
makes the transport raise KeyError (http.py line 18 subscripts the headers
dictionary and only ValueError is caught), with no sleep and no retry. -/
theorem http_get_missing_retry_after_raises :
    http_get "u" none none
        [{ status_code := 429, retryAfter := none },
         { status_code := 200, retryAfter := none }] =
      ([{ url := "u", headers := [("User-Agent", USER_AGENT)], params := none }],
       [], .error .keyError) := by
  simp [http_get, http_get_loop, adict_set, adict_remove]

/-! ## Claim theorems: REST flows -/

/-- Claim C4 counterevidence: in AmdaRest.get_timetable_list and
AmdaRest.get_timetable a failing first network call propagates its exception
after a single attempt; the three-iteration loop never reaches a second
iteration because the loop body returns unconditionally (rest.py lines 15-20
and 58-62), so three attempts and the final return None are unreachable.
Only AmdaRest.get_parameter retries: on soft failures it makes three attempts
and then yields no result, and a successful attempt returns immediately. -/
theorem rest_flows_raise_on_first_failure :
    amdarest_get_timetable_list (fun _ => .error .connectionError) =
      (.error .connectionError, 1) ∧
    amdarest_get_timetable (fun _ => .error .connectionError) =
      (.error .connectionError, 1) ∧
    amdarest_get_timetable_list (fun _ => .ok " doc ") = (.ok (some "doc"), 3) ∧
    amdarest_get_parameter (fun _ => .ok "tok") (fun _ => .bad) = (.ok none, 3) ∧
    amdarest_get_parameter (fun _ => .ok "tok")
        (fun a => if a = 0 then .good "u" else .bad) = (.ok (some "u"), 1) := by
  refine ⟨rfl, rfl, ?_, rfl, rfl⟩
  decide

/-! ## Store lemmas for the fragmented cache -/

lemma storeGet_storeSet_self (s : Store) (k : FragKey) (e : FragEntry) :
    storeGet (storeSet s k e) k = some e := by
  simp [storeGet, storeSet, adict_set, alookup]

lemma alookup_adict_remove_ne {α β : Type} [DecidableEq α] (k k2 : α)
    (s : List (α × β)) (h : k2 ≠ k) :
    alookup k2 (adict_remove k s) = alookup k2 s := by
  induction s with
  | nil => rfl
  | cons kv rest ih =>
    obtain ⟨k1, v⟩ := kv
    by_cases h1 : k1 = k
    · have h2 : ¬ k = k2 := fun hh => h hh.symm
      simp [adict_remove, alookup, h1, h2, ih]
    · simp [adict_remove, alookup, h1, ih]

lemma storeGet_storeSet_other (s : Store) (k k2 : FragKey) (e : FragEntry)
    (h : k2 ≠ k) :
    storeGet (storeSet s k e) k2 = storeGet s k2 := by
  have h2 : ¬ k = k2 := fun hh => h hh.symm
  simp [storeGet, storeSet, adict_set, alookup, h2, alookup_adict_remove_ne k k2 s h]

/-- A valid entry (version equal to the current token) is never touched by a
fragment step: a hit leaves the store unchanged and a write only happens at a
key whose entry was absent or stale. -/
lemma fetchFragment_preserves (pid ver : String) (rf : Nat → Nat → Payload) (w : Nat)
    (m : Payload) (s : Store) (c : Nat) (fs2 : Nat) (k : FragKey) (e : FragEntry)
    (hv : e.version = ver) (h : storeGet s k = some e) :
    storeGet (fetchFragment pid ver rf w (m, s, c) fs2).2.1 k = some e := by
  unfold fetchFragment
  cases hc : storeGet s ⟨pid, fs2, fs2 + w⟩ with
  | none =>
    by_cases hk : k = (⟨pid, fs2, fs2 + w⟩ : FragKey)
    · rw [hk, hc] at h
      exact absurd h (by simp)
    · simp only [hc]
      rw [storeGet_storeSet_other _ _ _ _ hk]
      exact h
  | some e2 =>
    by_cases hver : e2.version = ver
    · simp only [hc, if_pos hver]
      exact h
    · simp only [hc, if_neg hver]
      by_cases hk : k = (⟨pid, fs2, fs2 + w⟩ : FragKey)
      · rw [hk, hc] at h
        injection h with he
        exact absurd (by rw [he]; exact hv) hver
      · rw [storeGet_storeSet_other _ _ _ _ hk]
        exact h

lemma foldl_fetchFragment_preserves (pid ver : String) (rf : Nat → Nat → Payload)
    (w : Nat) (L : List Nat) :
    ∀ (acc : Payload × Store × Nat) (k : FragKey) (e : FragEntry),
      e.version = ver → storeGet acc.2.1 k = some e →
      storeGet ((L.foldl (fetchFragment pid ver rf w) acc)).2.1 k = some e := by
  induction L with
  | nil => exact fun acc k e _ h => h
  | cons fs rest ih =>
    intro acc k e hv h
    obtain ⟨m, s, c⟩ := acc
    simp only [List.foldl_cons]
    exact ih _ k e hv (fetchFragment_preserves pid ver rf w m s c fs k e hv h)

/-- A fragment step changes the store at most at its own key. -/
lemma fetchFragment_frame (pid ver : String) (rf : Nat → Nat → Payload) (w : Nat)
    (m : Payload) (s : Store) (c : Nat) (fs2 : Nat) (k : FragKey)
    (hk : k ≠ (⟨pid, fs2, fs2 + w⟩ : FragKey)) :
    storeGet (fetchFragment pid ver rf w (m, s, c) fs2).2.1 k = storeGet s k := by
  unfold fetchFragment
  cases hc : storeGet s ⟨pid, fs2, fs2 + w⟩ with
  | none =>
    simp only [hc]
    exact storeGet_storeSet_other _ _ _ _ hk
  | some e2 =>
    by_cases hver : e2.version = ver
    · simp only [hc, if_pos hver]
    · simp only [hc, if_neg hver]
      exact storeGet_storeSet_other _ _ _ _ hk

lemma foldl_fetchFragment_frame (pid ver : String) (rf : Nat → Nat → Payload)
    (w : Nat) (L : List Nat) :
    ∀ (acc : Payload × Store × Nat) (k : FragKey),
      (∀ fs ∈ L, k ≠ (⟨pid, fs, fs + w⟩ : FragKey)) →
      storeGet ((L.foldl (fetchFragment pid ver rf w) acc)).2.1 k = storeGet acc.2.1 k := by
  induction L with
  | nil => exact fun acc k _ => rfl
  | cons fs rest ih =>
    intro acc k hout
    obtain ⟨m, s, c⟩ := acc
    simp only [List.foldl_cons]
    rw [ih _ k (fun fs2 h2 => hout fs2 (List.mem_cons_of_mem fs h2))]
    exact fetchFragment_frame pid ver rf w m s c fs k (hout fs (List.mem_cons_self fs rest))

/-- Evaluation of a fragment step on a hit: a stored entry with the current
version is reused and nothing is written or counted. -/
lemma fetchFragment_hit (pid ver : String) (rf : Nat → Nat → Payload) (w : Nat)
    (m : Payload) (s : Store) (c : Nat) (fs : Nat) (e : FragEntry)
    (hc : storeGet s ⟨pid, fs, fs + w⟩ = some e) (hv : e.version = ver) :
    fetchFragment pid ver rf w (m, s, c) fs = (m ++ e.payload, s, c) := by
  simp only [fetchFragment]
  rw [hc]
  simp [hv]

/-- Evaluation of a fragment step on a stale entry: the cell is refetched,
stored under the current version, and counted. -/
lemma fetchFragment_stale (pid ver : String) (rf : Nat → Nat → Payload) (w : Nat)
    (m : Payload) (s : Store) (c : Nat) (fs : Nat) (e : FragEntry)
    (hc : storeGet s ⟨pid, fs, fs + w⟩ = some e) (hv : ¬ e.version = ver) :
    fetchFragment pid ver rf w (m, s, c) fs =
      (m ++ rf fs (fs + w),
       storeSet s ⟨pid, fs, fs + w⟩ ⟨rf fs (fs + w), ver⟩, c + 1) := by
  simp only [fetchFragment]
  rw [hc]
  simp [hv]

/-- Evaluation of a fragment step on a miss: the cell is fetched, stored
under the current version, and counted. -/
lemma fetchFragment_miss (pid ver : String) (rf : Nat → Nat → Payload) (w : Nat)
    (m : Payload) (s : Store) (c : Nat) (fs : Nat)
    (hc : storeGet s ⟨pid, fs, fs + w⟩ = none) :
    fetchFragment pid ver rf w (m, s, c) fs =
      (m ++ rf fs (fs + w),
       storeSet s ⟨pid, fs, fs + w⟩ ⟨rf fs (fs + w), ver⟩, c + 1) := by
  simp only [fetchFragment]
  rw [hc]

/-- The payload stored for a fragment cell, empty when absent. -/
def entryPayload (s : Store) (pid : String) (w fs : Nat) : Payload :=
  match storeGet s ⟨pid, fs, fs + w⟩ with
  | some e => e.payload
  | none => []

/-- After the fragment walk every walked cell holds an entry carrying the
current version token. -/
lemma foldl_fetchFragment_validates (pid ver : String) (rf : Nat → Nat → Payload)
    (w : Nat) (L : List Nat) :
    ∀ (acc : Payload × Store × Nat) (fs : Nat), fs ∈ L →
      ∃ e, storeGet ((L.foldl (fetchFragment pid ver rf w) acc)).2.1
          (⟨pid, fs, fs + w⟩ : FragKey) = some e ∧ e.version = ver := by
  induction L with
  | nil => intro acc fs h; exact absurd h (List.not_mem_nil fs)
  | cons fs0 rest ih =>
    intro acc fs h
    obtain ⟨m, s, c⟩ := acc
    simp only [List.foldl_cons]
    rcases List.mem_cons.mp h with heq | hmem
    · subst heq
      have hstep : ∃ e, storeGet (fetchFragment pid ver rf w (m, s, c) fs).2.1
          (⟨pid, fs, fs + w⟩ : FragKey) = some e ∧ e.version = ver := by
        cases hc : storeGet s ⟨pid, fs, fs + w⟩ with
        | none =>
          rw [fetchFragment_miss pid ver rf w m s c fs hc]
          exact ⟨⟨rf fs (fs + w), ver⟩, storeGet_storeSet_self _ _ _, rfl⟩
        | some e2 =>
          by_cases hver : e2.version = ver
          · rw [fetchFragment_hit pid ver rf w m s c fs e2 hc hver]
            exact ⟨e2, hc, hver⟩
          · rw [fetchFragment_stale pid ver rf w m s c fs e2 hc hver]
            exact ⟨⟨rf fs (fs + w), ver⟩, storeGet_storeSet_self _ _ _, rfl⟩
      obtain ⟨e, he, hv⟩ := hstep
      exact ⟨e, foldl_fetchFragment_preserves pid ver rf w rest _ _ e hv he, hv⟩
    · exact ih _ fs hmem

/-- The merged payload of the fragment walk is the concatenation, in walk
order, of the payloads the final store holds for the walked cells. -/
lemma foldl_fetchFragment_merged (pid ver : String) (rf : Nat → Nat → Payload)
    (w : Nat) (L : List Nat) :
    ∀ (m : Payload) (s : Store) (c : Nat),
      ((L.foldl (fetchFragment pid ver rf w) (m, s, c))).1 =
        m ++ (L.map (entryPayload
          ((L.foldl (fetchFragment pid ver rf w) (m, s, c))).2.1 pid w)).flatten := by
  induction L with
  | nil => intro m s c; simp
  | cons fs rest ih =>
    intro m s c
    have hstep : ∃ p0 s0 c0,
        fetchFragment pid ver rf w (m, s, c) fs = (m ++ p0, s0, c0) ∧
        storeGet s0 (⟨pid, fs, fs + w⟩ : FragKey) = some ⟨p0, ver⟩ := by
      cases hc : storeGet s ⟨pid, fs, fs + w⟩ with
      | none =>
        rw [fetchFragment_miss pid ver rf w m s c fs hc]
        exact ⟨rf fs (fs + w), _, _, rfl, storeGet_storeSet_self _ _ _⟩
      | some e2 =>
        by_cases hver : e2.version = ver
        · obtain ⟨pay, vv⟩ := e2
          rw [fetchFragment_hit pid ver rf w m s c fs ⟨pay, vv⟩ hc hver]
          refine ⟨pay, s, c, rfl, ?_⟩
          rw [hc]
          have hveq : vv = ver := hver
          rw [hveq]
        · rw [fetchFragment_stale pid ver rf w m s c fs e2 hc hver]
          exact ⟨rf fs (fs + w), _, _, rfl, storeGet_storeSet_self _ _ _⟩
    obtain ⟨p0, s0, c0, hs, hentry⟩ := hstep
    simp only [List.foldl_cons, hs]
    have hfinal : storeGet
        ((rest.foldl (fetchFragment pid ver rf w) (m ++ p0, s0, c0))).2.1
        (⟨pid, fs, fs + w⟩ : FragKey) = some ⟨p0, ver⟩ :=
      foldl_fetchFragment_preserves pid ver rf w rest (m ++ p0, s0, c0) _ _ rfl hentry
    rw [ih (m ++ p0) s0 c0]
    simp only [List.map_cons, List.flatten_cons, entryPayload, hfinal]
    rw [List.append_assoc]

/-- When every walked cell already holds a current-version entry the walk
reads the stored payloads, changes nothing, and fetches nothing. -/
lemma foldl_fetchFragment_all_hit (pid ver : String) (rf : Nat → Nat → Payload)
    (w : Nat) (L : List Nat) :
    ∀ (m : Payload) (s : Store) (c : Nat),
      (∀ fs ∈ L, ∃ e, storeGet s (⟨pid, fs, fs + w⟩ : FragKey) = some e ∧
        e.version = ver) →
      L.foldl (fetchFragment pid ver rf w) (m, s, c) =
        (m ++ (L.map (entryPayload s pid w)).flatten, s, c) := by
  induction L with
  | nil => intro m s c _; simp
  | cons fs rest ih =>
    intro m s c hall
    obtain ⟨e, he, hv⟩ := hall fs (List.mem_cons_self fs rest)
    simp only [List.foldl_cons, fetchFragment_hit pid ver rf w m s c fs e he hv]
    rw [ih (m ++ e.payload) s c (fun fs2 h2 => hall fs2 (List.mem_cons_of_mem fs h2))]
    simp only [List.map_cons, List.flatten_cons, entryPayload, he]
    rw [List.append_assoc]

/-- Claim C2 (fragmented cache modelled from the spec, speasy/cache.py being
outside the sources): repeating a fetch with the same product, range and
version token issues zero raw fetches, returns output identical to the first
call, and leaves the store exactly as the first call left it; every fragment
stored under the current token is reused instead of refetched. -/
theorem claim_C2 (pid : String) (start stop w : Nat) (versionOf : String → String)
    (rawFetch : Nat → Nat → Payload) (store : Store) :
    cfetch pid start stop versionOf rawFetch w
        (cfetch pid start stop versionOf rawFetch w store).2.1 =
      ((cfetch pid start stop versionOf rawFetch w store).1,
       (cfetch pid start stop versionOf rawFetch w store).2.1, 0) := by
  simp only [cfetch]
  set L := fragStarts start stop w with hL
  set r1 := L.foldl (fetchFragment pid (versionOf pid) rawFetch w) ([], store, 0) with hr1
  have hvalid : ∀ fs ∈ L, ∃ e,
      storeGet r1.2.1 (⟨pid, fs, fs + w⟩ : FragKey) = some e ∧
      e.version = versionOf pid :=
    fun fs h =>
      foldl_fetchFragment_validates pid (versionOf pid) rawFetch w L ([], store, 0) fs h
  rw [foldl_fetchFragment_all_hit pid (versionOf pid) rawFetch w L [] r1.2.1 0 hvalid]
  have hmerged := foldl_fetchFragment_merged pid (versionOf pid) rawFetch w L [] store 0
  rw [← hr1] at hmerged
  simp [hmerged]

/-- Every walked cell intersects the requested half-open range. -/
lemma fragStarts_intersects (start stop w : Nat) (fs : Nat)
    (h : fs ∈ fragStarts start stop w) : fs < stop ∧ start < fs + w := by
  unfold fragStarts at h
  by_cases h0 : w = 0
  · simp [h0] at h
  · rw [if_neg h0] at h
    by_cases h1 : start < stop
    · rw [if_pos h1] at h
      simp only [List.mem_map, List.mem_range] at h
      obtain ⟨i, hi, rfl⟩ := h
      have hw : 0 < w := Nat.pos_of_ne_zero h0
      have hfle : start / w * w ≤ start := Nat.div_mul_le_self start w
      have hcomm : w * (start / w) = start / w * w := Nat.mul_comm w (start / w)
      have hflt : start < start / w * w + w := by
        have hdm := Nat.div_add_mod start w
        have hml := Nat.mod_lt start hw
        omega
      constructor
      · have h2 : (i + 1) * w ≤ ((stop - start / w * w + (w - 1)) / w) * w :=
          Nat.mul_le_mul hi (le_refl w)
        have h3 : ((stop - start / w * w + (w - 1)) / w) * w ≤
            stop - start / w * w + (w - 1) := Nat.div_mul_le_self _ w
        have h4 : (i + 1) * w = i * w + w := Nat.succ_mul i w
        omega
      · have h5 : 0 ≤ i * w := Nat.zero_le _
        omega
    · rw [if_neg h1] at h
      simp at h

/-- Different walked cells have different start points. -/
lemma fragStarts_nodup (start stop w : Nat) : (fragStarts start stop w).Nodup := by
  unfold fragStarts
  by_cases h0 : w = 0
  · simp [h0]
  · rw [if_neg h0]
    by_cases h1 : start < stop
    · rw [if_pos h1]
      refine List.Nodup.map ?_ (List.nodup_range _)
      intro i j hij
      have hw : 0 < w := Nat.pos_of_ne_zero h0
      have hij2 : start / w * w + i * w = start / w * w + j * w := hij
      have hij3 : i * w = j * w := Nat.add_left_cancel hij2
      exact Nat.eq_of_mul_eq_mul_right hw hij3
    · rw [if_neg h1]
      exact List.nodup_nil

/-- A nonempty walk needs a nonzero cell width. -/
lemma fragStarts_w_ne_zero (start stop w : Nat) (fs : Nat)
    (h : fs ∈ fragStarts start stop w) : w ≠ 0 := by
  intro h0
  rw [h0] at h
  simp [fragStarts] at h

/-- Claim C7 (fragmented cache modelled from the spec, speasy/cache.py being
outside the sources): after the version token changes, fetching a range
refetches each of its stale cells and overwrites them under the new token,
while every stored entry whose key is outside the walked cells - in
particular a disjoint fragment cached under the old token - is left
byte-for-byte unchanged; and every walked cell intersects the requested
half-open range. -/
theorem claim_C7 (pid : String) (start stop w : Nat) (versionOf : String → String)
    (rawFetch : Nat → Nat → Payload) (store : Store)
    (kB : FragKey) (eB : FragEntry)
    (hB : storeGet store kB = some eB)
    (hBout : ∀ fs ∈ fragStarts start stop w, kB ≠ (⟨pid, fs, fs + w⟩ : FragKey))
    (fsA : Nat) (hA : fsA ∈ fragStarts start stop w)
    (pA : Payload) (vA : String)
    (hAentry : storeGet store (⟨pid, fsA, fsA + w⟩ : FragKey) = some ⟨pA, vA⟩)
    (hstale : ¬ vA = versionOf pid) :
    storeGet (cfetch pid start stop versionOf rawFetch w store).2.1 kB = some eB ∧
    storeGet (cfetch pid start stop versionOf rawFetch w store).2.1
        (⟨pid, fsA, fsA + w⟩ : FragKey) =
      some ⟨rawFetch fsA (fsA + w), versionOf pid⟩ ∧
    (∀ fs ∈ fragStarts start stop w, fs < stop ∧ start < fs + w) := by
  refine ⟨?_, ?_, fun fs h => fragStarts_intersects start stop w fs h⟩
  · simp only [cfetch]
    rw [foldl_fetchFragment_frame pid (versionOf pid) rawFetch w
      (fragStarts start stop w) ([], store, 0) kB hBout]
    exact hB
  · simp only [cfetch]
    obtain ⟨L1, L2, hsplit⟩ := List.append_of_mem hA
    have hnd : (fragStarts start stop w).Nodup := fragStarts_nodup start stop w
    rw [hsplit] at hnd
    have hnotL1 : fsA ∉ L1 := by
      rcases List.nodup_append.mp hnd with ⟨-, -, hdisj⟩
      intro hmem
      exact hdisj hmem (List.mem_cons_self fsA L2)
    have hout1 : ∀ fs ∈ L1, (⟨pid, fsA, fsA + w⟩ : FragKey) ≠
        (⟨pid, fs, fs + w⟩ : FragKey) := by
      intro fs hfs hkey
      apply hnotL1
      have hfseq : fsA = fs := by
        rw [FragKey.mk.injEq] at hkey
        exact hkey.2.1
      rw [hfseq]
      exact hfs
    have hpre : storeGet
        ((L1.foldl (fetchFragment pid (versionOf pid) rawFetch w) ([], store, 0))).2.1
        (⟨pid, fsA, fsA + w⟩ : FragKey) = some ⟨pA, vA⟩ := by
      rw [foldl_fetchFragment_frame pid (versionOf pid) rawFetch w L1 ([], store, 0)
        (⟨pid, fsA, fsA + w⟩ : FragKey) hout1]
      exact hAentry
    rw [hsplit, List.foldl_append]
    rcases hacc : L1.foldl (fetchFragment pid (versionOf pid) rawFetch w)
        ([], store, 0) with ⟨m1, s1, c1⟩
    rw [hacc] at hpre
    simp only [List.foldl_cons]
    rw [fetchFragment_stale pid (versionOf pid) rawFetch w m1 s1 c1 fsA ⟨pA, vA⟩
      hpre hstale]
    exact foldl_fetchFragment_preserves pid (versionOf pid) rawFetch w L2 _ _ _ rfl
      (storeGet_storeSet_self _ _ _)

/-- A store holding two disjoint fragments of product p under version 1. -/
def sampleFragStore : Store :=
  [((⟨"p", 0, 12⟩ : FragKey), (⟨[(0, "old")], "1"⟩ : FragEntry)),
   ((⟨"p", 24, 36⟩ : FragKey), (⟨[(24, "b")], "1"⟩ : FragEntry))]

theorem claim_C7_witness :
    storeGet (cfetch "p" 0 12 (fun _ => "2") (fun a _ => [(a, "d")]) 12
        sampleFragStore).2.1 (⟨"p", 24, 36⟩ : FragKey) =
      some (⟨[(24, "b")], "1"⟩ : FragEntry) ∧
    storeGet (cfetch "p" 0 12 (fun _ => "2") (fun a _ => [(a, "d")]) 12
        sampleFragStore).2.1 (⟨"p", 0, 12⟩ : FragKey) =
      some (⟨[(0, "d")], "2"⟩ : FragEntry) :=
  ⟨(claim_C7 "p" 0 12 12 (fun _ => "2") (fun a _ => [(a, "d")]) sampleFragStore
      (⟨"p", 24, 36⟩ : FragKey) (⟨[(24, "b")], "1"⟩ : FragEntry)
      (by decide) (by decide) 0 (by decide) [(0, "old")] "1"
      (by decide) (by decide)).1,
   (claim_C7 "p" 0 12 12 (fun _ => "2") (fun a _ => [(a, "d")]) sampleFragStore
      (⟨"p", 24, 36⟩ : FragKey) (⟨[(24, "b")], "1"⟩ : FragEntry)
      (by decide) (by decide) 0 (by decide) [(0, "old")] "1"
      (by decide) (by decide)).2.1⟩
